import Mathlib

/- Shallow embedding of the NUFEB reaction-diffusion core:
src/code/lammps5Nov16/src/fix_bio_kinetics_diffusion.cpp,
src/code/lammps5Nov16/src/fix_bio_kinetics.cpp and
src/src/KOKKOS/fix_monod_cyano_kokkos.cpp. Machine doubles are modelled
as exact rationals (reals for the particle update, which takes a cube
root); flat grid indices are integers so that neighbour offsets
(grid-1, grid-nX, grid-nX*nY) never truncate. -/

namespace NUFEB

/-- Static parameters of FixKineticsDiffusion: local array extents nX, nY
(subdomain plus two ghost layers), global cell counts nx, ny, nz, cell
sizes, domain bounds, boundary-condition flags (0=pp, 1=dd, 2=nd, 3=nn,
4=dn, z only: 5=db), shear rate and the bulk mass-balance inputs. -/
structure DiffParams where
  nX : Int
  nY : Int
  nx : Int
  ny : Int
  nz : Int
  stepx : ℚ
  stepy : ℚ
  stepz : ℚ
  xlo : ℚ
  xhi : ℚ
  ylo : ℚ
  yhi : ℚ
  zlo : ℚ
  zhi : ℚ
  xbcflag : Nat
  ybcflag : Nat
  zbcflag : Nat
  shearRate : ℚ
  nprocs : Nat

/-- Per-species prescribed boundary concentrations xbcm..zbcp, as set from
iniS in FixKineticsDiffusion::diffusion lines 347-362 (after the optional
unit conversion). -/
structure BCConc where
  xbcm : ℚ
  xbcp : ℚ
  ybcm : ℚ
  ybcp : ℚ
  zbcm : ℚ
  zbcp : ℚ

/-- Per-cell geometric state of the local grid: the ghost flag array and
the three coordinates of each cell centre (the xGrid array). -/
structure GridState where
  ghost : Int → Bool
  xgx : Int → ℚ
  xgy : Int → ℚ
  xgz : Int → ℚ

/-- The depth walk of the shear correction in
FixKineticsDiffusion::compute_flux: starting from the cell itself it
steps to lower flat indices until it meets a ghost cell, counting the
steps. The C loop is `while (!ghost[hgrid]) { hgrid--; deep++; }`; it is
bounded here by fuel, which compute_flux sets large enough to reach
index 0 (in any run cell 0 is a ghost corner cell, so the walk stops). -/
def deepWalk (ghost : Int → Bool) : Nat → Int → Nat
  | 0, _ => 0
  | fuel + 1, h => if ghost h then 0 else deepWalk ghost fuel (h - 1) + 1

/-- FixKineticsDiffusion::compute_flux (lines 601-639): the explicit
7-point diffusion-reaction update of one non-ghost cell, returning the
new (pre-clamp) concentration written into nuGrid. -/
def compute_flux (p : DiffParams) (g : GridState) (cellDNu : ℚ)
    (nuPrev : Int → ℚ) (rateNu : ℚ) (diffT : ℚ) (grid : Int) : ℚ :=
  let lhs := grid - 1
  let rhs := grid + 1
  let bwd := grid - p.nX
  let fwd := grid + p.nX
  let down := grid - p.nX * p.nY
  let up := grid + p.nX * p.nY
  let jRight := cellDNu * (nuPrev rhs - nuPrev grid) / p.stepx
  let jLeft := cellDNu * (nuPrev grid - nuPrev lhs) / p.stepx
  let jX := (jRight - jLeft) / p.stepx
  let jForward := cellDNu * (nuPrev fwd - nuPrev grid) / p.stepy
  let jBackward := cellDNu * (nuPrev grid - nuPrev bwd) / p.stepy
  let jY := (jForward - jBackward) / p.stepy
  let jUp := cellDNu * (nuPrev up - nuPrev grid) / p.stepz
  let jDown := cellDNu * (nuPrev grid - nuPrev down) / p.stepz
  let jZ := (jUp - jDown) / p.stepz
  let shear : ℚ :=
    if p.shearRate ≠ 0 then
      let deep : ℚ := (deepWalk g.ghost (grid.toNat + 1) grid : ℚ)
      p.shearRate * (deep * p.stepz - p.stepz / 2) * (nuPrev rhs - nuPrev lhs) / (2 * p.stepz)
    else 0
  let res := (jX + jY + jZ + rateNu - shear) * diffT
  nuPrev grid + res

/-- The shear correction term of compute_flux in isolation (zero unless a
nonzero shear rate is configured). -/
def shearTerm (p : DiffParams) (g : GridState) (nuPrev : Int → ℚ) (grid : Int) : ℚ :=
  if p.shearRate ≠ 0 then
    (p.shearRate * ((deepWalk g.ghost (grid.toNat + 1) grid : ℚ) * p.stepz - p.stepz / 2)
      * (nuPrev (grid + 1) - nuPrev (grid - 1)) / (2 * p.stepz))
  else 0

/-- The 7-point axis flux exactly as the spec writes it: for axis u,
flux_u = (D*(c[+1]-c[0])/h - D*(c[0]-c[-1])/h)/h. -/
def axisFlux (d cm c0 cp h : ℚ) : ℚ :=
  (d * (cp - c0) / h - d * (c0 - cm) / h) / h

/-- FixKineticsDiffusion::compute_bc (lines 473-592), without the final
clamp: the boundary-condition value assigned to a ghost cell, following
the else-if chain over the six faces; a face branch fires only when the
cell centre is beyond that face and the inward neighbour is not a ghost
cell, and inside a branch the per-axis flag selects the formula
(0=periodic, 1=dd, 2=nd, 3=nn, 4=dn); any flag without a case (the
z-axis db flag 5) leaves the stored value nuCell unchanged. -/
def compute_bc_raw (p : DiffParams) (g : GridState) (b : BCConc) (bulk : ℚ)
    (nuPrev : Int → ℚ) (nuCell : ℚ) (grid : Int) : ℚ :=
  let lhs := grid - 1
  let rhs := grid + 1
  let bwd := grid - p.nX
  let fwd := grid + p.nX
  let down := grid - p.nX * p.nY
  let up := grid + p.nX * p.nY
  if g.xgz grid < p.zlo ∧ g.ghost up = false then
    if p.zbcflag = 0 then
      (if p.nprocs < 2 then nuPrev (grid + p.nX * p.nY * p.nz) else nuCell)
    else if p.zbcflag = 1 then 2 * b.zbcm - nuPrev up
    else if p.zbcflag = 2 then nuPrev up
    else if p.zbcflag = 3 then nuPrev up
    else if p.zbcflag = 4 then 2 * b.zbcm - nuPrev up
    else nuCell
  else if g.xgz grid > p.zhi ∧ g.ghost down = false then
    if p.zbcflag = 0 then
      (if p.nprocs < 2 then nuPrev (grid - p.nX * p.nY * p.nz) else nuCell)
    else if p.zbcflag = 1 then 2 * bulk - nuPrev down
    else if p.zbcflag = 2 then 2 * bulk - nuPrev down
    else if p.zbcflag = 3 then nuPrev down
    else if p.zbcflag = 4 then nuPrev down
    else nuCell
  else if g.xgy grid < p.ylo ∧ g.ghost fwd = false then
    if p.ybcflag = 0 then
      (if p.nprocs < 2 then nuPrev (grid + p.nX * p.ny) else nuCell)
    else if p.ybcflag = 1 then 2 * b.ybcm - nuPrev fwd
    else if p.ybcflag = 2 then nuPrev fwd
    else if p.ybcflag = 3 then nuPrev fwd
    else if p.ybcflag = 4 then 2 * b.ybcm - nuPrev fwd
    else nuCell
  else if g.xgy grid > p.yhi ∧ g.ghost bwd = false then
    if p.ybcflag = 0 then
      (if p.nprocs < 2 then nuPrev (grid - p.nX * p.ny) else nuCell)
    else if p.ybcflag = 1 then 2 * b.ybcp - nuPrev bwd
    else if p.ybcflag = 2 then 2 * b.ybcp - nuPrev bwd
    else if p.ybcflag = 3 then nuPrev bwd
    else if p.ybcflag = 4 then nuPrev bwd
    else nuCell
  else if g.xgx grid < p.xlo ∧ g.ghost rhs = false then
    if p.xbcflag = 0 then
      (if p.nprocs < 2 then nuPrev (grid + p.nx) else nuCell)
    else if p.xbcflag = 1 then 2 * b.xbcm - nuPrev rhs
    else if p.xbcflag = 2 then nuPrev rhs
    else if p.xbcflag = 3 then nuPrev rhs
    else if p.xbcflag = 4 then 2 * b.xbcm - nuPrev rhs
    else nuCell
  else if g.xgx grid > p.xhi ∧ g.ghost lhs = false then
    if p.xbcflag = 0 then
      (if p.nprocs < 2 then nuPrev (grid - p.nx) else nuCell)
    else if p.xbcflag = 1 then 2 * b.xbcp - nuPrev lhs
    else if p.xbcflag = 2 then 2 * b.xbcp - nuPrev lhs
    else if p.xbcflag = 3 then nuPrev lhs
    else if p.xbcflag = 4 then nuPrev lhs
    else nuCell
  else nuCell

/-- The positivity floor 1e-20 used by the diffusion stepper. -/
def concFloor : ℚ := 1 / 10 ^ 20

/-- FixKineticsDiffusion::compute_bc including its final clamp
(line 594: a non-positive value becomes 1e-20). -/
def compute_bc (p : DiffParams) (g : GridState) (b : BCConc) (bulk : ℚ)
    (nuPrev : Int → ℚ) (nuCell : ℚ) (grid : Int) : ℚ :=
  let v := compute_bc_raw p g b bulk nuPrev nuCell grid
  if v ≤ 0 then concFloor else v

/-- One cell of the per-species update loop in
FixKineticsDiffusion::diffusion (lines 387-409): a true cell gets the
compute_flux result, kept when positive and otherwise replaced by the
1e-20 floor; a ghost cell gets the compute_bc boundary value. -/
def cellUpdate (p : DiffParams) (g : GridState) (b : BCConc) (bulk : ℚ)
    (cellDNu : ℚ) (nuPrev : Int → ℚ) (rateNu : ℚ) (diffT : ℚ)
    (nuCell : ℚ) (grid : Int) : ℚ :=
  if g.ghost grid = false then
    let v := compute_flux p g cellDNu nuPrev rateNu diffT grid
    if v > 0 then v else concFloor
  else compute_bc p g b bulk nuPrev nuCell grid

/-- The six domain faces a boundary ghost cell can lie on. -/
inductive Face where
  | xLow
  | xHigh
  | yLow
  | yHigh
  | zLow
  | zHigh
deriving DecidableEq

/-- The inward-adjacent neighbour index used by the face branch of
compute_bc: rhs, lhs, fwd, bwd, up or down. -/
def Face.adj (p : DiffParams) (grid : Int) : Face → Int
  | .xLow => grid + 1
  | .xHigh => grid - 1
  | .yLow => grid + p.nX
  | .yHigh => grid - p.nX
  | .zLow => grid + p.nX * p.nY
  | .zHigh => grid - p.nX * p.nY

/-- The cell lies on the given face proper: its centre is beyond that
face and within the domain bounds on the other two axes (so no earlier
branch of the else-if chain in compute_bc can fire). -/
def Face.onFace (p : DiffParams) (g : GridState) (grid : Int) : Face → Prop
  | .xLow => g.xgx grid < p.xlo ∧ p.ylo ≤ g.xgy grid ∧ g.xgy grid ≤ p.yhi
      ∧ p.zlo ≤ g.xgz grid ∧ g.xgz grid ≤ p.zhi
  | .xHigh => g.xgx grid > p.xhi ∧ p.ylo ≤ g.xgy grid ∧ g.xgy grid ≤ p.yhi
      ∧ p.zlo ≤ g.xgz grid ∧ g.xgz grid ≤ p.zhi
  | .yLow => g.xgy grid < p.ylo ∧ p.zlo ≤ g.xgz grid ∧ g.xgz grid ≤ p.zhi
  | .yHigh => g.xgy grid > p.yhi ∧ p.zlo ≤ g.xgz grid ∧ g.xgz grid ≤ p.zhi
  | .zLow => g.xgz grid < p.zlo
  | .zHigh => g.xgz grid > p.zhi

/-- The boundary kind configured for the axis of the face prescribes a
Dirichlet condition at that face (flags 1=dd both faces, 2=nd high face,
4=dn low face). -/
def Face.dirichletOn (p : DiffParams) : Face → Prop
  | .xLow => p.xbcflag = 1 ∨ p.xbcflag = 4
  | .xHigh => p.xbcflag = 1 ∨ p.xbcflag = 2
  | .yLow => p.ybcflag = 1 ∨ p.ybcflag = 4
  | .yHigh => p.ybcflag = 1 ∨ p.ybcflag = 2
  | .zLow => p.zbcflag = 1 ∨ p.zbcflag = 4
  | .zHigh => p.zbcflag = 1 ∨ p.zbcflag = 2

/-- The concentration value prescribed at a face: the per-species
boundary value for the x, y and low-z faces, and the bulk reservoir
concentration for the bulk-facing high-z face. -/
def Face.prescribed (b : BCConc) (bulk : ℚ) : Face → ℚ
  | .xLow => b.xbcm
  | .xHigh => b.xbcp
  | .yLow => b.ybcm
  | .yHigh => b.ybcp
  | .zLow => b.zbcm
  | .zHigh => bulk

/-- A concrete parameter set used by witnesses: a 1x1x1 interior grid
with Neumann x and y boundaries and the bulk z boundary, no shear. -/
def pW : DiffParams :=
  { nX := 3, nY := 3, nx := 1, ny := 1, nz := 1,
    stepx := 1, stepy := 1, stepz := 1,
    xlo := 0, xhi := 1, ylo := 0, yhi := 1, zlo := 0, zhi := 1,
    xbcflag := 3, ybcflag := 3, zbcflag := 5,
    shearRate := 0, nprocs := 1 }

/-- A concrete grid state used by witnesses: every cell a true cell at
the origin. -/
def gW : GridState :=
  { ghost := fun _ => false, xgx := fun _ => 0, xgy := fun _ => 0, xgz := fun _ => 0 }

/-- Witness parameters with a Dirichlet-Dirichlet x boundary. -/
def pW2 : DiffParams := { pW with xbcflag := 1 }

/-- Witness grid state: cells centred just beyond the low-x face. -/
def gWx : GridState :=
  { ghost := fun _ => false, xgx := fun _ => -1/2, xgy := fun _ => 1/2, xgz := fun _ => 1/2 }

/-- Witness grid state: cells centred just below the low-z face. -/
def gWz : GridState :=
  { ghost := fun _ => false, xgx := fun _ => 1/2, xgy := fun _ => 1/2, xgz := fun _ => -1/2 }

/-- Witness boundary concentrations. -/
def bW : BCConc :=
  { xbcm := 10, xbcp := 11, ybcm := 12, ybcp := 13, zbcm := 14, zbcp := 15 }

/-- One local cell of a species at convergence-check time: its ghost
flag, its updated concentration (nuGrid after the step and clamps) and
its previous-iteration snapshot (nuPrev). -/
structure Cell where
  ghost : Bool
  newV : ℚ
  prevV : ℚ

/-- The running maximum maxS of FixKineticsDiffusion::diffusion: the
per-cell loop updates p_maxS from nuGrid for every local cell, ghost or
true (line 409 sits outside the ghost branch), starting from 0. -/
def maxS (cells : List Cell) : ℚ :=
  cells.foldl (fun m c => max m c.newV) 0

/-- The guarded divisor of the convergence check (line 421): maxS, with
1 substituted when maxS is 0. -/
def convDiv (cells : List Cell) : ℚ :=
  if maxS cells = 0 then 1 else maxS cells

/-- The per-cell convergence ratio of lines 422-424. -/
def cellRatio (cells : List Cell) (c : Cell) : ℚ :=
  |c.newV / convDiv cells - c.prevV / convDiv cells|

/-- The local per-species convergence decision of one process
(lines 415-428): every non-ghost cell must have ratio below tol; ghost
cells contribute nothing; with a nonzero rflag the ratio keeps its
sentinel value 1000 (the constructor always sets rflag to 0). -/
def localConv (rflag : Nat) (tol : ℚ) (cells : List Cell) : Bool :=
  cells.all fun c =>
    if c.ghost then true
    else decide ((if rflag = 0 then cellRatio cells c else 1000) < tol)

/-- Modelled from the spec words for comparison with the code: the
maximum concentration among true (non-ghost) cells only. -/
def maxSTrue (cells : List Cell) : ℚ :=
  (cells.filter fun c => !c.ghost).foldl (fun m c => max m c.newV) 0

/-- Modelled from the spec words: the guarded divisor using the
true-cell maximum. -/
def convDivSpec (cells : List Cell) : ℚ :=
  if maxSTrue cells = 0 then 1 else maxSTrue cells

/-- Modelled from the spec words: the per-cell ratio with maxC taken
over true cells only, as the claim states it. -/
def cellRatioSpec (cells : List Cell) (c : Cell) : ℚ :=
  |c.newV / convDivSpec cells - c.prevV / convDivSpec cells|

/-- Per-species convergence-flag update of one diffusion call: every
process computes conv true unless the species is liquid and still
unconverged, in which case it runs the local check (lines 374-432), and
the global flag is the logical AND of all processes (the MPI_BAND
reduction of lines 436-439). Each list entry holds the local cells of
one process. -/
def procConv (rflag : Nat) (tol : ℚ) (liquid oldFlag : Bool)
    (cells : List Cell) : Bool :=
  if liquid && !oldFlag then localConv rflag tol cells else true

/-- The globally reduced convergence flag of one species after one
diffusion call. -/
def globalConvFlag (rflag : Nat) (tol : ℚ) (liquid oldFlag : Bool)
    (procs : List (List Cell)) : Bool :=
  (procs.map (procConv rflag tol liquid oldFlag)).all fun x => x

/-- Counterexample fixture for the convergence claim: one process with
one true cell (new 1, previous 2) and one ghost cell whose updated
boundary value 100 dominates the maximum. -/
def cellsCE : List Cell :=
  [{ ghost := false, newV := 1, prevV := 2 },
   { ghost := true, newV := 100, prevV := 100 }]

/-- FixKineticsDiffusion::compute_bulk inputs: flow rate q, reactor
volume rvol, surface-area scaling af, domain upper bounds (yhi*xhi is
the cross-section denominator), cell sizes, timestep dt and the fix
interval nevery. -/
structure BulkParams where
  q : ℚ
  rvol : ℚ
  af : ℚ
  xhi : ℚ
  yhi : ℚ
  stepx : ℚ
  stepy : ℚ
  stepz : ℚ
  dt : ℚ
  nevery : Nat

/-- The total reaction rate of compute_bulk: sumR accumulated over the
whole non-decomposed grid (the nuR row of the species, all nx*ny*nz
entries). -/
def sumR (nuR : List ℚ) : ℚ :=
  nuR.foldl (fun s r => s + r) 0

/-- FixKineticsDiffusion::compute_bulk (lines 462-467): the explicit
Euler update of the bulk concentration of one species. -/
def compute_bulk (bp : BulkParams) (nuR : List ℚ) (zbcp nuBS : ℚ) : ℚ :=
  nuBS + ((bp.q / bp.rvol) * (zbcp - nuBS)
    + (bp.af / (bp.rvol * bp.yhi * bp.xhi)) * sumR nuR
      * bp.stepx * bp.stepy * bp.stepz) * bp.dt * bp.nevery

/-- The bulk-update guard of FixKineticsDiffusion::diffusion (line 364):
compute_bulk runs for a species only on the first inner iteration, for
names other than o2, and only when q and af are both non-negative;
otherwise the bulk value is untouched. -/
def bulkStep (bp : BulkParams) (name : Nat → String) (nuRf : Nat → List ℚ)
    (zbcpf : Nat → ℚ) (iter : Nat) (nuBS : Nat → ℚ) : Nat → ℚ :=
  fun i =>
    if iter = 1 ∧ name i ≠ "o2" ∧ 0 ≤ bp.q ∧ 0 ≤ bp.af then
      compute_bulk bp (nuRf i) (zbcpf i) (nuBS i)
    else nuBS i

/-- The bulk concentrations after the first n inner iterations of one
macro-timestep (the integration loop calls diffusion with iter = 1, 2,
...). -/
def bulkAfter (bp : BulkParams) (name : Nat → String) (nuRf : Nat → List ℚ)
    (zbcpf : Nat → ℚ) : Nat → (Nat → ℚ) → (Nat → ℚ)
  | 0, nuBS => nuBS
  | n + 1, nuBS => bulkStep bp name nuRf zbcpf (n + 1)
      (bulkAfter bp name nuRf zbcpf n nuBS)

/-- Witness fixture for the bulk update. -/
def bpW : BulkParams :=
  { q := 1, rvol := 2, af := 1, xhi := 1, yhi := 1,
    stepx := 1, stepy := 1, stepz := 1, dt := 1 / 2, nevery := 2 }

/-- The indices of the species whose flags are still false when the
iteration cap forces convergence (the names printed by
FixKinetics::integration, lines 306-311). -/
def forcedIdx (l : List Bool) : List Nat :=
  (List.range l.length).filter fun i => l.getD i true = false

/-- The while loop of FixKinetics::integration (lines 286-316), fuelled:
each pass increments the iteration count, runs one coupled step (ph,
thermo, growth and the diffusion call, abstracted as the flag
transformer diff), exits when every flag is true, and past 10000
iterations forces every remaining flag to true, recording which species
were forced. The flag list models indices 1..nnus. -/
def integrationAux (diff : Nat → List Bool → List Bool) :
    Nat → Nat → List Bool → Option (Nat × List Bool × List Nat)
  | 0, _, _ => none
  | fuel + 1, iteration, nuConv =>
    let it := iteration + 1
    let nuConv2 := diff it nuConv
    if 10000 < it then
      some (it, nuConv2.map fun _ => true, forcedIdx nuConv2)
    else if nuConv2.all (fun x => x) then some (it, nuConv2, [])
    else integrationAux diff fuel it nuConv2

/-- FixKinetics::integration from iteration 0, with enough fuel for the
iteration cap. -/
def integration (diff : Nat → List Bool → List Bool) (nuConv0 : List Bool) :
    Option (Nat × List Bool × List Nat) :=
  integrationAux diff 10002 0 nuConv0

/-- FixKineticsDiffusion::isEuqal (lines 645-652): the cell-size equality
check used by init before reporting a non-cubic grid; the source tests
fabs(a - b) against epsilon three times and never consults c. -/
def isEuqal (a b c : ℚ) : Bool :=
  let epsilon : ℚ := 1 / 10 ^ 10
  if |a - b| > epsilon ∨ |a - b| > epsilon ∨ |a - b| > epsilon then false
  else true

/-- Particle state touched by FixMonodCyanoKokkos::update_atoms. The
double fields are modelled as rationals; the constant MY_PI and the
library cube root pow(x, 1.0/3.0) are double approximations in the
source and enter the embedding as the parameters pi and powThird. -/
structure BioAtom where
  x : ℚ × ℚ × ℚ
  mask : Nat
  rmass : ℚ
  radius : ℚ
  outer_mass : ℚ
  outer_radius : ℚ

/-- Per-atom body of FixMonodCyanoKokkos::update_atoms (lines 87-114):
for an atom in the coupled group, the density is taken from the mass
and radius before the update, the mass is scaled by 1 plus the growth
rate of the cell holding the atom centre times dt, and the radius is
recomputed from the new mass at that density via the cube root. -/
def update_atoms_one (pi : ℚ) (powThird : ℚ → ℚ) (groupbit : Nat)
    (cellOf : ℚ × ℚ × ℚ → Nat) (growth : Nat → ℚ) (dt : ℚ)
    (a : BioAtom) : BioAtom :=
  if a.mask &&& groupbit ≠ 0 then
    let three_quarters_pi : ℚ := 3 / (4 * pi)
    let four_thirds_pi : ℚ := 4 * pi / 3
    let density := a.rmass / (four_thirds_pi * a.radius * a.radius * a.radius)
    let rmass2 := a.rmass * (1 + growth (cellOf a.x) * dt)
    let radius2 := powThird (three_quarters_pi * (rmass2 / density))
    { a with rmass := rmass2, radius := radius2,
             outer_mass := 0, outer_radius := radius2 }
  else a

/-- FixMonodCyanoKokkos::update_atoms over the local atom list. -/
def update_atoms (pi : ℚ) (powThird : ℚ → ℚ) (groupbit : Nat)
    (cellOf : ℚ × ℚ × ℚ → Nat) (growth : Nat → ℚ) (dt : ℚ)
    (atoms : List BioAtom) : List BioAtom :=
  atoms.map (update_atoms_one pi powThird groupbit cellOf growth dt)

/-- Witness atom for the particle update. -/
def aW : BioAtom :=
  { x := (0, 0, 0), mask := 1, rmass := 2, radius := 1,
    outer_mass := 0, outer_radius := 1 }

/-- C1: for a true cell of an unconverged liquid species the new
pre-clamp concentration is the previous value plus dt_diff times the sum
of the three axis fluxes (each the 7-point divergence of the spec, read
from the previous-iteration snapshot) plus the reaction rate minus the
shear correction; in particular with zero diffusion coefficient and zero
shear rate the per-iteration change is exactly rate * dt_diff. -/
theorem compute_flux_spec_formula (p : DiffParams) (g : GridState) (d : ℚ)
    (nuPrev : Int → ℚ) (rateNu : ℚ) (diffT : ℚ) (grid : Int) :
    (compute_flux p g d nuPrev rateNu diffT grid
      = nuPrev grid + diffT *
          (axisFlux d (nuPrev (grid - 1)) (nuPrev grid) (nuPrev (grid + 1)) p.stepx
            + axisFlux d (nuPrev (grid - p.nX)) (nuPrev grid) (nuPrev (grid + p.nX)) p.stepy
            + axisFlux d (nuPrev (grid - p.nX * p.nY)) (nuPrev grid)
                (nuPrev (grid + p.nX * p.nY)) p.stepz
            + rateNu - shearTerm p g nuPrev grid))
    ∧ (d = 0 → p.shearRate = 0 →
        compute_flux p g d nuPrev rateNu diffT grid = nuPrev grid + rateNu * diffT) := by
  constructor
  · simp only [compute_flux, axisFlux, shearTerm]
    ring
  · intro hd hs
    simp only [compute_flux, hd, hs, ne_eq, not_true_eq_false, if_false]
    ring_nf

/-- Witness for C1 at a concrete input: zero diffusion coefficient, zero
shear, uniform reaction rate 5, dt_diff = 1/10, constant field 3. -/
theorem compute_flux_spec_formula_witness :
    compute_flux pW gW 0 (fun _ => 3) 5 (1 / 10) 13 = 7 / 2 := by
  have h := (compute_flux_spec_formula pW gW 0 (fun _ => 3) 5 (1 / 10) 13).2 rfl rfl
  rw [h]
  norm_num

/-- C3: every cell updated by the diffusion step (true cells through the
flux update, ghost cells through the boundary-condition computation)
ends up strictly positive: a non-positive computed value is replaced by
the 1e-20 floor, so no updated cell holds a zero or negative
concentration. -/
theorem cellUpdate_pos (p : DiffParams) (g : GridState) (b : BCConc) (bulk : ℚ)
    (cellDNu : ℚ) (nuPrev : Int → ℚ) (rateNu : ℚ) (diffT : ℚ)
    (nuCell : ℚ) (grid : Int) :
    0 < cellUpdate p g b bulk cellDNu nuPrev rateNu diffT nuCell grid := by
  unfold cellUpdate compute_bc
  have hfloor : (0:ℚ) < concFloor := by norm_num [concFloor]
  by_cases hg : g.ghost grid = false
  · simp only [hg, if_true]
    by_cases hv : compute_flux p g cellDNu nuPrev rateNu diffT grid > 0
    · simp [hv]
    · simpa [hv] using hfloor
  · simp only [hg, if_false]
    by_cases hv : compute_bc_raw p g b bulk nuPrev nuCell grid ≤ 0
    · simpa [hv] using hfloor
    · simpa [hv] using lt_of_not_le hv

/-- C4: for a ghost cell lying on a face whose configured axis boundary
kind prescribes a Dirichlet condition there, with a non-ghost inward
neighbour, the boundary computation stores
2 * prescribed_boundary_value - adjacent_previous_value (the prescribed
value of the bulk-facing high-z face being the bulk concentration), for
each of the six faces; the positivity hypothesis keeps the final clamp
from firing. -/
theorem compute_bc_dirichlet (p : DiffParams) (g : GridState) (b : BCConc)
    (bulk : ℚ) (nuPrev : Int → ℚ) (nuCell : ℚ) (grid : Int) (f : Face)
    (hxx : p.xlo ≤ p.xhi) (hyy : p.ylo ≤ p.yhi) (hzz : p.zlo ≤ p.zhi)
    (hface : Face.onFace p g grid f) (hdir : Face.dirichletOn p f)
    (hadj : g.ghost (Face.adj p grid f) = false)
    (hpos : 0 < 2 * Face.prescribed b bulk f - nuPrev (Face.adj p grid f)) :
    compute_bc p g b bulk nuPrev nuCell grid
      = 2 * Face.prescribed b bulk f - nuPrev (Face.adj p grid f) := by
  cases f with
  | zLow =>
    simp only [Face.onFace] at hface
    simp only [Face.adj] at hadj hpos ⊢
    simp only [Face.prescribed] at hpos ⊢
    rcases hdir with h | h <;>
      simp [compute_bc, compute_bc_raw, h, hface, hadj, not_le.mpr hpos]
  | zHigh =>
    simp only [Face.onFace] at hface
    simp only [Face.adj] at hadj hpos ⊢
    simp only [Face.prescribed] at hpos ⊢
    have h1 : ¬ (g.xgz grid < p.zlo) := not_lt.mpr (le_trans hzz (le_of_lt hface))
    rcases hdir with h | h <;>
      simp [compute_bc, compute_bc_raw, h, h1, hface, hadj, not_le.mpr hpos]
  | yLow =>
    obtain ⟨hy, hz1, hz2⟩ := hface
    simp only [Face.adj] at hadj hpos ⊢
    simp only [Face.prescribed] at hpos ⊢
    have h1 : ¬ (g.xgz grid < p.zlo) := not_lt.mpr hz1
    have h2 : ¬ (g.xgz grid > p.zhi) := not_lt.mpr hz2
    rcases hdir with h | h <;>
      simp [compute_bc, compute_bc_raw, h, h1, h2, hy, hadj, not_le.mpr hpos]
  | yHigh =>
    obtain ⟨hy, hz1, hz2⟩ := hface
    simp only [Face.adj] at hadj hpos ⊢
    simp only [Face.prescribed] at hpos ⊢
    have h1 : ¬ (g.xgz grid < p.zlo) := not_lt.mpr hz1
    have h2 : ¬ (g.xgz grid > p.zhi) := not_lt.mpr hz2
    have h3 : ¬ (g.xgy grid < p.ylo) := not_lt.mpr (le_trans hyy (le_of_lt hy))
    rcases hdir with h | h <;>
      simp [compute_bc, compute_bc_raw, h, h1, h2, h3, hy, hadj, not_le.mpr hpos]
  | xLow =>
    obtain ⟨hx, hy1, hy2, hz1, hz2⟩ := hface
    simp only [Face.adj] at hadj hpos ⊢
    simp only [Face.prescribed] at hpos ⊢
    have h1 : ¬ (g.xgz grid < p.zlo) := not_lt.mpr hz1
    have h2 : ¬ (g.xgz grid > p.zhi) := not_lt.mpr hz2
    have h3 : ¬ (g.xgy grid < p.ylo) := not_lt.mpr hy1
    have h4 : ¬ (g.xgy grid > p.yhi) := not_lt.mpr hy2
    rcases hdir with h | h <;>
      simp [compute_bc, compute_bc_raw, h, h1, h2, h3, h4, hx, hadj, not_le.mpr hpos]
  | xHigh =>
    obtain ⟨hx, hy1, hy2, hz1, hz2⟩ := hface
    simp only [Face.adj] at hadj hpos ⊢
    simp only [Face.prescribed] at hpos ⊢
    have h1 : ¬ (g.xgz grid < p.zlo) := not_lt.mpr hz1
    have h2 : ¬ (g.xgz grid > p.zhi) := not_lt.mpr hz2
    have h3 : ¬ (g.xgy grid < p.ylo) := not_lt.mpr hy1
    have h4 : ¬ (g.xgy grid > p.yhi) := not_lt.mpr hy2
    have h5 : ¬ (g.xgx grid < p.xlo) := not_lt.mpr (le_trans hxx (le_of_lt hx))
    rcases hdir with h | h <;>
      simp [compute_bc, compute_bc_raw, h, h1, h2, h3, h4, h5, hx, hadj, not_le.mpr hpos]

/-- Witness for C4: a ghost cell beyond the low-x face of a
Dirichlet-Dirichlet x boundary with prescribed value 10 and adjacent
previous value 3 stores 2*10 - 3 = 17. -/
theorem compute_bc_dirichlet_witness :
    compute_bc pW2 gWx bW 0 (fun _ => 3) 99 4 = 17 := by
  have h := compute_bc_dirichlet pW2 gWx bW 0 (fun _ => 3) 99 4 Face.xLow
    (by norm_num [pW2, pW]) (by norm_num [pW2, pW]) (by norm_num [pW2, pW])
    (by norm_num [Face.onFace, pW2, pW, gWx]) (Or.inl rfl) rfl
    (by norm_num [Face.prescribed, Face.adj, bW])
  rw [h]
  norm_num [Face.prescribed, bW]

/-- C9: with the z-axis boundary kind db (zbcflag = 5) the boundary
computation applies no formula to a cell beyond the low-z or high-z
face: the stored concentration is unchanged except that a non-positive
value is clamped to the 1e-20 floor. -/
theorem compute_bc_db_zface_noop (p : DiffParams) (g : GridState) (b : BCConc)
    (bulk : ℚ) (nuPrev : Int → ℚ) (nuCell : ℚ) (grid : Int)
    (h5 : p.zbcflag = 5) (hzz : p.zlo ≤ p.zhi)
    (hz : g.xgz grid < p.zlo ∨ g.xgz grid > p.zhi)
    (hy1 : p.ylo ≤ g.xgy grid) (hy2 : g.xgy grid ≤ p.yhi)
    (hx1 : p.xlo ≤ g.xgx grid) (hx2 : g.xgx grid ≤ p.xhi) :
    compute_bc p g b bulk nuPrev nuCell grid
      = if nuCell ≤ 0 then concFloor else nuCell := by
  have h3 : ¬ (g.xgy grid < p.ylo) := not_lt.mpr hy1
  have h4 : ¬ (g.xgy grid > p.yhi) := not_lt.mpr hy2
  have h5x : ¬ (g.xgx grid < p.xlo) := not_lt.mpr hx1
  have h6x : ¬ (g.xgx grid > p.xhi) := not_lt.mpr hx2
  rcases hz with hz | hz
  · have h2 : ¬ (g.xgz grid > p.zhi) := not_lt.mpr (le_trans (le_of_lt hz) hzz)
    simp [compute_bc, compute_bc_raw, h5, hz, h2, h3, h4, h5x, h6x]
  · have h1 : ¬ (g.xgz grid < p.zlo) := not_lt.mpr (le_trans hzz (le_of_lt hz))
    simp [compute_bc, compute_bc_raw, h5, hz, h1, h3, h4, h5x, h6x]

/-- Witness for C9: a cell below the low-z face with positive stored
value 3 keeps it under the db boundary kind. -/
theorem compute_bc_db_zface_noop_witness :
    compute_bc pW gWz bW 0 (fun _ => 8) 3 4 = 3 := by
  have h := compute_bc_db_zface_noop pW gWz bW 0 (fun _ => 8) 3 4
    rfl (by norm_num [pW]) (Or.inl (by norm_num [pW, gWz]))
    (by norm_num [pW, gWz]) (by norm_num [pW, gWz])
    (by norm_num [pW, gWz]) (by norm_num [pW, gWz])
  rw [h]
  norm_num

/-- The local convergence decision with rflag 0 holds exactly when every
non-ghost local cell has ratio below tol. -/
theorem localConv_eq_true_iff (tol : ℚ) (cells : List Cell) :
    localConv 0 tol cells = true ↔
      ∀ c ∈ cells, c.ghost = false → cellRatio cells c < tol := by
  simp only [localConv, List.all_eq_true]
  constructor
  · intro h c hc hg
    have hcheck := h c hc
    simpa [hg] using hcheck
  · intro h c hc
    cases hg : c.ghost
    · simpa [hg] using h c hc hg
    · simp [hg]

/-- C2 (amended): for an unconverged liquid species, the species flag
after a diffusion call is true exactly when, on every process, every
true cell has convergence ratio below tol, the ratio being
the absolute difference of new and previous concentration both divided
by the maximum updated concentration over ALL local cells of that
process (ghost cells included), with 1 substituted when that maximum is
0; the global flag is the AND over processes. -/
theorem conv_flag_characterization (tol : ℚ) (procs : List (List Cell)) :
    globalConvFlag 0 tol true false procs = true ↔
      ∀ cells ∈ procs, ∀ c ∈ cells, c.ghost = false →
        cellRatio cells c < tol := by
  have hpc : ∀ cells, procConv 0 tol true false cells = localConv 0 tol cells :=
    fun _ => rfl
  rw [globalConvFlag, List.all_eq_true]
  constructor
  · intro h cells hc
    refine (localConv_eq_true_iff tol cells).mp ?_
    rw [← hpc]
    exact h _ (List.mem_map_of_mem _ hc)
  · intro h x hx
    obtain ⟨cells, hc, rfl⟩ := List.mem_map.mp hx
    rw [hpc]
    exact (localConv_eq_true_iff tol cells).mpr (h cells hc)

/-- Counterexample to C2 as stated: the code divides by the maximum over
all local cells, not only true cells. With one true cell (new 1,
previous 2) and one ghost cell holding 100, the code declares
convergence at tol 3/5, while the ratio of the claim (maxC over true
cells only) is 1, not below 3/5. -/
theorem conv_maxC_counterexample :
    ({ ghost := false, newV := 1, prevV := 2 } : Cell) ∈ cellsCE
      ∧ globalConvFlag 0 (3/5) true false [cellsCE] = true
      ∧ ¬ cellRatioSpec cellsCE { ghost := false, newV := 1, prevV := 2 } < 3/5 := by
  refine ⟨by simp [cellsCE], ?_, ?_⟩
  · simp only [globalConvFlag, procConv, localConv, cellsCE, cellRatio, convDiv,
      maxS, List.map, List.all, List.foldl, Bool.and_true]
    norm_num [max_def, abs_lt]
  · simp only [cellRatioSpec, convDivSpec, maxSTrue, cellsCE, List.filter, List.foldl]
    norm_num [max_def, abs_lt]

/-- The fuelled integration loop always returns within the cap. -/
theorem integrationAux_some (diff : Nat → List Bool → List Bool) :
    ∀ fuel iteration nuConv, iteration ≤ 10000 → 10002 ≤ iteration + fuel →
      ∃ itn fin forced,
        integrationAux diff fuel iteration nuConv = some (itn, fin, forced)
          ∧ itn ≤ 10001 ∧ fin.all (fun x => x) = true
          ∧ (itn ≤ 10000 → forced = []) := by
  intro fuel
  induction fuel with
  | zero => intro iteration nuConv h1 h2; omega
  | succ f ih =>
    intro iteration nuConv h1 h2
    by_cases hcap : 10000 < iteration + 1
    · refine ⟨iteration + 1, (diff (iteration + 1) nuConv).map fun _ => true,
        forcedIdx (diff (iteration + 1) nuConv), ?_, by omega, ?_, fun h => by omega⟩
      · simp [integrationAux, hcap]
      · simp [List.all_eq_true]
    · by_cases hall : (diff (iteration + 1) nuConv).all (fun x => x) = true
      · exact ⟨iteration + 1, diff (iteration + 1) nuConv, [],
          by simp [integrationAux, hcap, hall], by omega, hall, fun _ => rfl⟩
      · obtain ⟨itn, fin, forced, heq, hle, hallf, hforc⟩ :=
          ih (iteration + 1) (diff (iteration + 1) nuConv) (by omega) (by omega)
        exact ⟨itn, fin, forced, by simp [integrationAux, hcap, hall, heq],
          hle, hallf, hforc⟩

/-- C5: with a diffusion stepper present, the coupled convergence loop of
FixKinetics::integration always terminates, for every possible behaviour
of the coupled step: it returns within 10001 iterations, every species
flag is true on exit (naturally converged, or forced once the iteration
count exceeds 10000, recording the forced species), and no species is
reported forced when the loop exits within the cap. -/
theorem integration_terminates (diff : Nat → List Bool → List Bool)
    (nuConv0 : List Bool) :
    ∃ itn fin forced, integration diff nuConv0 = some (itn, fin, forced)
      ∧ itn ≤ 10001 ∧ fin.all (fun x => x) = true
      ∧ (itn ≤ 10000 → forced = []) := by
  have h := integrationAux_some diff 10002 0 nuConv0 (by omega) (by omega)
  simpa [integration] using h

/-- C6: across the inner iterations of one macro-timestep, a species
other than o2 with non-negative q and af has its bulk concentration
updated exactly once (on the first inner iteration) by the explicit
Euler formula of the claim, and a species failing the eligibility
condition keeps its bulk value unchanged. -/
theorem bulk_updated_once_per_macrostep (bp : BulkParams) (name : Nat → String)
    (nuRf : Nat → List ℚ) (zbcpf : Nat → ℚ) (nuBS0 : Nat → ℚ) (n : Nat)
    (hn : 1 ≤ n) (i : Nat) :
    (name i ≠ "o2" ∧ 0 ≤ bp.q ∧ 0 ≤ bp.af →
      bulkAfter bp name nuRf zbcpf n nuBS0 i
        = nuBS0 i + ((bp.q / bp.rvol) * (zbcpf i - nuBS0 i)
            + (bp.af / (bp.rvol * (bp.yhi * bp.xhi))) * sumR (nuRf i)
              * (bp.stepx * bp.stepy * bp.stepz)) * (bp.dt * (bp.nevery : ℚ)))
    ∧ (¬ (name i ≠ "o2" ∧ 0 ≤ bp.q ∧ 0 ≤ bp.af) →
      bulkAfter bp name nuRf zbcpf n nuBS0 i = nuBS0 i) := by
  induction n with
  | zero => exact absurd hn (by omega)
  | succ m ih =>
    rcases Nat.eq_zero_or_pos m with h0 | hpos
    · subst h0
      constructor
      · intro he
        obtain ⟨h1, h2, h3⟩ := he
        simp only [bulkAfter, bulkStep, compute_bulk]
        rw [if_pos ⟨by norm_num, h1, h2, h3⟩]
        ring
      · intro he
        simp only [bulkAfter, bulkStep]
        rw [if_neg fun hc => he hc.2]
    · have ihm := ih hpos
      have hstep : bulkAfter bp name nuRf zbcpf (m + 1) nuBS0 i
          = bulkAfter bp name nuRf zbcpf m nuBS0 i := by
        simp only [bulkAfter, bulkStep]
        rw [if_neg]
        rintro ⟨h1, -⟩
        omega
      constructor
      · intro he
        rw [hstep]
        exact ihm.1 he
      · intro he
        rw [hstep]
        exact ihm.2 he

/-- Witness for C6: three inner iterations, species named nh4, q = 1,
reactor volume 2, af = 1, one reaction cell with total rate 1, feed 4,
initial bulk 2, dt 1/2, nevery 2: the bulk becomes 7/2 and only the
first iteration changed it. -/
theorem bulk_updated_once_witness :
    bulkAfter bpW (fun _ => "nh4") (fun _ => [1]) (fun _ => 4) 3 (fun _ => 2) 1
      = 7 / 2 := by
  have h := (bulk_updated_once_per_macrostep bpW (fun _ => "nh4") (fun _ => [1])
    (fun _ => 4) (fun _ => 2) 3 (by omega) 1).1
    ⟨by decide, by norm_num [bpW], by norm_num [bpW]⟩
  rw [h]
  norm_num [bpW, sumR]

/-- C7 (code bug): isEuqal tests the pair a, b three times and never
consults c, so init accepts the non-cubic cell sizes stepx = stepy = 1,
stepz = 2 even though the sizes differ by far more than the 1e-10
tolerance: the check the claim describes would reject them. -/
theorem isEuqal_accepts_non_cubic :
    isEuqal 1 1 2 = true ∧ ¬ |(1 : ℚ) - 2| ≤ 1 / 10 ^ 10 := by
  constructor
  · simp [isEuqal]
  · rw [show |(1 : ℚ) - 2| = 1 by rw [abs_of_nonpos (by norm_num)]; norm_num]
    norm_num

/-- C8: for a particle in the coupled group, update_atoms multiplies the
mass by 1 + growthRate*dt with growthRate read from the cell containing
the particle centre, and recomputes the radius from the new mass as the
cube root of 3*mass/(4*pi*density), where density is that of the
particle before the mass update. -/
theorem update_atoms_mass_radius (pi : ℚ) (powThird : ℚ → ℚ) (groupbit : Nat)
    (cellOf : ℚ × ℚ × ℚ → Nat) (growth : Nat → ℚ) (dt : ℚ) (a : BioAtom)
    (h : a.mask &&& groupbit ≠ 0) :
    (update_atoms_one pi powThird groupbit cellOf growth dt a).rmass
        = a.rmass * (1 + growth (cellOf a.x) * dt)
      ∧ (update_atoms_one pi powThird groupbit cellOf growth dt a).radius
        = powThird (3 * (a.rmass * (1 + growth (cellOf a.x) * dt))
            / (4 * pi * (a.rmass / (4 / 3 * pi * a.radius ^ 3)))) := by
  constructor
  · simp only [update_atoms_one, if_pos h]
  · simp only [update_atoms_one, if_pos h]
    congr 1
    have hden : 4 * pi / 3 * a.radius * a.radius * a.radius
        = 4 / 3 * pi * a.radius ^ 3 := by ring
    rw [hden, div_mul_div_comm]

/-- Witness for C8: a grouped particle of mass 2 with growth rate 5 and
dt 1 ends with mass 12. -/
theorem update_atoms_mass_radius_witness :
    (update_atoms_one 3 id 1 (fun _ => 0) (fun _ => 5) 1 aW).rmass = 12 := by
  have h := (update_atoms_mass_radius 3 id 1 (fun _ => 0) (fun _ => 5) 1 aW
    (by decide)).1
  rw [h]
  norm_num [aW]

/-- C10: species convergence flags are monotone across inner iterations:
a species whose flag is already true is skipped by every process, so
the AND-reduced flag stays true after any further diffusion call; and a
non-liquid species gets flag true from the first diffusion call
whatever its field values. -/
theorem nuConv_monotone (rflag : Nat) (tol : ℚ) (liquid oldFlag : Bool)
    (procs : List (List Cell)) :
    (oldFlag = true → globalConvFlag rflag tol liquid oldFlag procs = true)
    ∧ (liquid = false → globalConvFlag rflag tol liquid oldFlag procs = true) := by
  constructor
  · intro h
    subst h
    simp [globalConvFlag, procConv, List.all_eq_true]
  · intro h
    subst h
    simp [globalConvFlag, procConv, List.all_eq_true]

/-- Witness for C10: an already-converged species stays converged, and a
non-liquid species converges at once, on a concrete process list. -/
theorem nuConv_monotone_witness :
    globalConvFlag 0 1 true true [cellsCE] = true
      ∧ globalConvFlag 0 1 false false [cellsCE] = true :=
  ⟨(nuConv_monotone 0 1 true true [cellsCE]).1 rfl,
   (nuConv_monotone 0 1 false false [cellsCE]).2 rfl⟩

end NUFEB
